import Mathlib

/-!
Verification of the CSV reader in `notebooks/readcsv.py` (repository PythonPlay).

The reader is modelled shallowly: file I/O is abstracted away, so `read_csv`
takes the file CONTENT (a list of characters) instead of a file name, and the
example-file writer is modelled as the content value it writes.  Fallible
Python operations (the `namedtuple` class construction, which raises
`ValueError` on bad field names, and `Row(*tokens)`, which raises `TypeError`
on an arity mismatch) are modelled with `Except`.
-/

set_option maxRecDepth 10000

/-- File contents, lines, field names and values are all plain text. -/
abbrev Str := List Char

/-- The two failure modes of `read_csv`: `namedtuple` raises `ValueError`
on an invalid or duplicate field name; `Row(*tokens)` raises `TypeError`
when the token count differs from the field count. -/
inductive PyError
  | valueError
  | typeError
deriving DecidableEq

/-- Helper for `splitLines`: accumulates the current (reversed) line. -/
def splitLinesAux : Str → Str → List Str
  | acc, [] => if acc.isEmpty then [] else [acc.reverse]
  | acc, c :: cs =>
    if c = '\n' then (acc.reverse ++ ['\n']) :: splitLinesAux [] cs
    else splitLinesAux (c :: acc) cs

/-- Python's line splitting as performed by `f.readline()` / `f.readlines()`:
each line keeps its trailing newline; a final fragment without a newline is
its own line; the empty content has no lines. -/
def splitLines (s : Str) : List Str := splitLinesAux [] s

/-- Python `s.replace(chr(34), emptystring)`: removes every double-quote
character, as `read_csv` does to the header and to every data line. -/
def removeQuotes (s : Str) : Str := s.filter (fun c => !(c == '"'))

/-- Python `s.rstrip(newline)`: removes every trailing newline character. -/
def pyRstripNewline (s : Str) : Str :=
  (s.reverse.dropWhile (fun c => c == '\n')).reverse

/-- Python `s.split(sep)` for a one-character separator: the result always
has one more element than the number of separators; splitting the empty
string yields one empty token. -/
def splitOnChar (sep : Char) : Str → List Str
  | [] => [[]]
  | c :: cs =>
    if c = sep then [] :: splitOnChar sep cs
    else
      match splitOnChar sep cs with
      | [] => [[c]]
      | t :: ts => (c :: t) :: ts

/-- Python `str.isspace` characters, the separators of no-argument
`str.split()` (used inside `namedtuple` on the field-name string). -/
def isPySpace (c : Char) : Bool :=
  c == ' ' || c == '\t' || c == '\n' || c == '\r' || c == '\x0b' || c == '\x0c'

/-- Helper for `pySplitWS`: accumulates the current (reversed) token. -/
def pySplitWSAux : Str → Str → List Str
  | acc, [] => if acc.isEmpty then [] else [acc.reverse]
  | acc, c :: cs =>
    if isPySpace c then
      if acc.isEmpty then pySplitWSAux [] cs
      else acc.reverse :: pySplitWSAux [] cs
    else pySplitWSAux (c :: acc) cs

/-- Python no-argument `s.split()`: splits on runs of whitespace and never
produces empty tokens. -/
def pySplitWS (s : Str) : List Str := pySplitWSAux [] s

/-- CPython `namedtuple` turns a string `field_names` argument into a list by
`field_names.replace(comma, space).split()`: commas become spaces, then the
string is split on whitespace runs. -/
def ntFieldNames (s : Str) : List Str :=
  pySplitWS (s.map (fun c => if c = ',' then ' ' else c))

/-- ASCII model of Python `str.isidentifier`: a letter or underscore followed
by letters, digits or underscores. -/
def isPyIdentifier : Str → Bool
  | [] => false
  | c :: cs => (c.isAlpha || c == '_') && cs.all (fun d => d.isAlphanum || d == '_')

/-- The Python keywords, which `namedtuple` rejects as field names. -/
def pyKeywords : List Str :=
  (["False", "None", "True", "and", "as", "assert", "async", "await",
    "break", "class", "continue", "def", "del", "elif", "else", "except",
    "finally", "for", "from", "global", "if", "in", "is", "lambda",
    "nonlocal", "not", "or", "pass", "raise", "return", "try",
    "while", "with", "yield"] ++ ["import"]).map (fun s => s.data)

/-- CPython `namedtuple` validation of a single field name (with the default
`rename=False`): a valid identifier, not a keyword, not starting with an
underscore. -/
def validFieldName (n : Str) : Bool :=
  isPyIdentifier n && !(decide (n ∈ pyKeywords)) &&
    (match n with
     | '_' :: _ => false
     | _ => true)

/-- CPython `namedtuple("Row", header)` succeeds exactly when every derived
field name is valid and the names are pairwise distinct. -/
def namedtupleOK (names : List Str) : Bool :=
  names.all validFieldName && decide names.Nodup

/-- One record produced by `read_csv`: the namedtuple class `Row` carries the
ordered field names (shared with the header) and this row's ordered values. -/
structure Row where
  fields : List Str
  values : List Str
deriving DecidableEq, Inhabited

/-- First-match association of a field name to its value, modelling
namedtuple attribute access such as `row.age`. -/
def lookupField : List Str → List Str → Str → Option Str
  | [], _, _ => none
  | _, [], _ => none
  | k :: ks, v :: vs, n => if k = n then some v else lookupField ks vs n

/-- Access a record field by name (`row.age`). -/
def Row.getByName (r : Row) (n : Str) : Option Str :=
  lookupField r.fields r.values n

/-- Access a record field by position (`row[2]`). -/
def Row.getByIndex (r : Row) (i : Nat) : Option Str := r.values[i]?

/-- `Row(*tokens)`: constructing a record checks the arity against the field
list and raises `TypeError` on a mismatch. -/
def mkRow (fields vals : List Str) : Except PyError Row :=
  if vals.length = fields.length then .ok ⟨fields, vals⟩ else .error .typeError

/-- One data line of `read_csv`'s list comprehension:
`Row(*(line.replace(quote, empty).rstrip(newline).split(comma)))`. -/
def processDataLine (fields : List Str) (line : Str) : Except PyError Row :=
  mkRow fields (splitOnChar ',' (pyRstripNewline (removeQuotes line)))

/-- The list comprehension `[Row(...) for line in f.readlines()]`: lines are
processed in order and the first raised error aborts the whole read with no
partial result. -/
def mapExcept {α β : Type} (f : α → Except PyError β) :
    List α → Except PyError (List β)
  | [] => .ok []
  | a :: as =>
    match f a with
    | .error e => .error e
    | .ok b =>
      match mapExcept f as with
      | .error e => .error e
      | .ok bs => .ok (b :: bs)

/-- `read_csv`, over the file's content: the first line (quotes removed) names
the fields through `namedtuple`; every remaining line becomes a `Row` in
order.  Any `namedtuple` or `Row` failure aborts the read. -/
def read_csv (content : Str) : Except PyError (List Row) :=
  let ls := splitLines content
  let header := removeQuotes (ls.headD [])
  let fields := ntFieldNames header
  if namedtupleOK fields then
    mapExcept (processDataLine fields) ls.tail
  else
    .error .valueError

/-- `create_example_csv_file`, modelled as the content it writes. -/
def create_example_csv_file : Str :=
  ("first_name,second_name,age,height,gender\n" ++
   "Fred,Bloggs,59,1.95,male\n" ++
   "Peter,Bloggs,15,1.86,male\n" ++
   "Ann,Somebody,32,1.76,female\n" ++
   "Ada,Lovelace,46,1.67,female\n").data

/-- The records obtained by reading the example file back. -/
def exampleRows : List Row := (read_csv create_example_csv_file).toOption.getD []

/-- The first record of the example file. -/
def exampleRow0 : Row := exampleRows.headD default

/-- C1: reading the concrete example file returns exactly 4 records; record 0
has exactly 5 fields; record 0's `age` field by name and its index-2 field by
position both equal the text string `59`. -/
theorem c1_example_read :
    (read_csv create_example_csv_file).toOption.map List.length = some 4 ∧
    exampleRow0.values.length = 5 ∧
    exampleRow0.getByName "age".data = some "59".data ∧
    exampleRow0.getByIndex 2 = some "59".data := by
  decide

/-- C7: round-trip: reading back the file written by
`create_example_csv_file` yields as many records as data lines written
(the lines after the header), namely 4. -/
theorem c7_roundtrip_count :
    (read_csv create_example_csv_file).toOption.map List.length =
      some (splitLines create_example_csv_file).tail.length ∧
    (splitLines create_example_csv_file).tail.length = 4 := by
  decide

/-! ### Helper lemmas about the reader -/

theorem mapExcept_ok {α β : Type} (f : α → Except PyError β) :
    ∀ (l : List α) (ys : List β), mapExcept f l = .ok ys →
      ys.length = l.length ∧
      ∀ i (h : i < l.length) (h2 : i < ys.length),
        f (l.get ⟨i, h⟩) = .ok (ys.get ⟨i, h2⟩) := by
  intro l
  induction l with
  | nil =>
    intro ys h
    simp only [mapExcept] at h
    cases h
    exact ⟨rfl, fun i h _ => absurd h (Nat.not_lt_zero i)⟩
  | cons a as ih =>
    intro ys h
    simp only [mapExcept] at h
    cases hfa : f a with
    | error e =>
      simp only [hfa] at h
      cases h
    | ok b =>
      simp only [hfa] at h
      cases hrec : mapExcept f as with
      | error e =>
        simp only [hrec] at h
        cases h
      | ok bs =>
        simp only [hrec] at h
        cases h
        obtain ⟨hlen, hpt⟩ := ih bs hrec
        refine ⟨by simp [hlen], ?_⟩
        intro i hi h2
        cases i with
        | zero => simpa using hfa
        | succ n =>
          simpa using hpt n (by simpa using hi) (by simpa using h2)

theorem processDataLine_ok (fields : List Str) (line : Str) (r : Row)
    (h : processDataLine fields line = .ok r) :
    r.fields = fields ∧ r.values.length = fields.length ∧
    r.values = splitOnChar ',' (pyRstripNewline (removeQuotes line)) := by
  unfold processDataLine mkRow at h
  split at h
  · injection h with h
    subst h
    refine ⟨rfl, by assumption, rfl⟩
  · cases h

theorem read_csv_ok_inv (content : Str) (rows : List Row)
    (h : read_csv content = .ok rows) :
    namedtupleOK (ntFieldNames (removeQuotes ((splitLines content).headD []))) = true ∧
    mapExcept (processDataLine (ntFieldNames (removeQuotes ((splitLines content).headD []))))
      (splitLines content).tail = .ok rows := by
  simp only [read_csv] at h
  split at h
  · exact ⟨by assumption, h⟩
  · cases h

/-- C2: for every successful read, there are as many records as data lines,
and the i-th record carries exactly the header's field names (in header
order), has as many values as there are field names, and is the record built
from the i-th data line. -/
theorem c2_order_and_fields (content : Str) (rows : List Row)
    (hok : read_csv content = .ok rows) :
    rows.length = (splitLines content).tail.length ∧
    ∀ i (hi : i < rows.length) (hd : i < (splitLines content).tail.length),
      (rows.get ⟨i, hi⟩).fields =
        ntFieldNames (removeQuotes ((splitLines content).headD [])) ∧
      (rows.get ⟨i, hi⟩).values.length =
        (ntFieldNames (removeQuotes ((splitLines content).headD []))).length ∧
      processDataLine (ntFieldNames (removeQuotes ((splitLines content).headD [])))
        ((splitLines content).tail.get ⟨i, hd⟩) = .ok (rows.get ⟨i, hi⟩) := by
  obtain ⟨-, hmap⟩ := read_csv_ok_inv content rows hok
  obtain ⟨hlen, hpt⟩ := mapExcept_ok _ _ _ hmap
  refine ⟨hlen, ?_⟩
  intro i hi hd
  have hstep := hpt i hd hi
  obtain ⟨hf, hvl, -⟩ := processDataLine_ok _ _ _ hstep
  exact ⟨hf, by rw [hvl], hstep⟩

/-- C2 witness: instantiated on the example file. -/
theorem c2_witness :
    exampleRows.length = (splitLines create_example_csv_file).tail.length :=
  (c2_order_and_fields create_example_csv_file exampleRows rfl).1

theorem lookupField_get (ks : List Str) (vs : List Str) (hnd : ks.Nodup)
    (hlen : vs.length = ks.length) (i : Nat) (hi : i < ks.length) :
    lookupField ks vs (ks.get ⟨i, hi⟩) = vs[i]? := by
  induction ks generalizing vs i with
  | nil => exact absurd hi (Nat.not_lt_zero i)
  | cons k ks ih =>
    cases vs with
    | nil => simp at hlen
    | cons v vs =>
      rw [List.nodup_cons] at hnd
      cases i with
      | zero => simp [lookupField]
      | succ n =>
        have hn : n < ks.length := Nat.lt_of_succ_lt_succ hi
        have hgs : (k :: ks).get ⟨n + 1, hi⟩ = ks.get ⟨n, hn⟩ := rfl
        have hne : ¬ k = ks.get ⟨n, hn⟩ := by
          intro hk
          exact hnd.1 (hk ▸ List.get_mem ks n hn)
        rw [hgs]
        simp only [lookupField, List.getElem?_cons_succ]
        rw [if_neg hne]
        exact ih vs hnd.2 (by simpa using hlen) n hn

/-- C3: for every record returned by a successful read, accessing a field by
its name and by its position yields the identical value. -/
theorem c3_name_index_equiv (content : Str) (rows : List Row)
    (hok : read_csv content = .ok rows) (r : Row) (hr : r ∈ rows)
    (i : Nat) (hi : i < r.fields.length) :
    r.getByName (r.fields.get ⟨i, hi⟩) = r.getByIndex i := by
  obtain ⟨hnt, hmap⟩ := read_csv_ok_inv content rows hok
  obtain ⟨hlen, hpt⟩ := mapExcept_ok _ _ _ hmap
  obtain ⟨j, hj⟩ := List.get_of_mem hr
  have hjr : j.1 < rows.length := j.2
  have hstep := hpt j.1 (hlen ▸ hjr) hjr
  obtain ⟨hf, hvl, -⟩ := processDataLine_ok _ _ _ hstep
  have hget : rows.get ⟨j.1, hjr⟩ = r := by
    cases j; exact hj
  rw [hget] at hf hvl
  have hnodup : r.fields.Nodup := by
    rw [hf]
    have := (Bool.and_eq_true _ _).mp hnt
    exact of_decide_eq_true this.2
  have hlenr : r.values.length = r.fields.length := by rw [hvl, hf]
  exact lookupField_get r.fields r.values hnodup hlenr i hi

/-- C3 witness: on the example file, record 0's field number 2 (named `age`)
gives the same value by name and by index. -/
theorem c3_witness :
    exampleRow0.getByName (exampleRow0.fields.get ⟨2, by decide⟩) =
      exampleRow0.getByIndex 2 :=
  c3_name_index_equiv create_example_csv_file exampleRows rfl exampleRow0
    (by decide) 2 (by decide)

theorem splitLinesAux_no_inner :
    ∀ (cs acc : Str), '\n' ∉ acc →
      ∀ l ∈ splitLinesAux acc cs, '\n' ∉ l.dropLast := by
  intro cs
  induction cs with
  | nil =>
    intro acc hacc l hl
    simp only [splitLinesAux] at hl
    split at hl
    · simp at hl
    · simp at hl
      subst hl
      intro hm
      exact hacc (by simpa using (List.dropLast_sublist _).subset hm)
  | cons c cs ih =>
    intro acc hacc l hl
    simp only [splitLinesAux] at hl
    split at hl
    · rcases List.mem_cons.mp hl with rfl | hl2
      · have hdl : (acc.reverse ++ ['\n']).dropLast = acc.reverse := by simp
        rw [hdl]
        intro hm
        exact hacc (by simpa using hm)
      · exact ih [] (by simp) l hl2
    · rename_i hcne
      refine ih (c :: acc) ?_ l hl
      intro hm
      rcases List.mem_cons.mp hm with rfl | hm2
      · exact hcne rfl
      · exact hacc hm2

theorem splitLines_no_inner (content : Str) :
    ∀ l ∈ splitLines content, '\n' ∉ l.dropLast :=
  splitLinesAux_no_inner content [] (by simp)

theorem removeQuotes_no_inner (l : Str) (h : '\n' ∉ l.dropLast) :
    '\n' ∉ (removeQuotes l).dropLast := by
  induction l using List.reverseRecOn with
  | nil => simp [removeQuotes]
  | append_singleton d a ih =>
    have hd : '\n' ∉ d := by
      rw [show (d ++ [a]).dropLast = d from by simp] at h
      exact h
    rw [removeQuotes, List.filter_append]
    by_cases hq : (a == '"') = true
    · have hfa : List.filter (fun c => !(c == '"')) [a] = [] := by simp [hq]
      rw [hfa, List.append_nil]
      intro hm
      exact hd (List.mem_of_mem_filter ((List.dropLast_sublist _).subset hm))
    · have hfa : List.filter (fun c => !(c == '"')) [a] = [a] := by simp [hq]
      rw [hfa, show (List.filter (fun c => !(c == '"')) d ++ [a]).dropLast =
        List.filter (fun c => !(c == '"')) d from by simp]
      intro hm
      exact hd (List.mem_of_mem_filter hm)

theorem pyRstripNewline_no_inner (s : Str) (h : '\n' ∉ s.dropLast) :
    pyRstripNewline s = if s.getLast? = some '\n' then s.dropLast else s := by
  induction s using List.reverseRecOn with
  | nil => simp [pyRstripNewline]
  | append_singleton d a ih =>
    have hd : '\n' ∉ d := by
      rw [show (d ++ [a]).dropLast = d from by simp] at h
      exact h
    have hrev : (d ++ [a]).reverse = a :: d.reverse := by simp
    rw [pyRstripNewline, hrev]
    by_cases ha : (a == '\n') = true
    · have ha2 : a = '\n' := by simpa using ha
      rw [List.dropWhile_cons, if_pos ha]
      have hdw : d.reverse.dropWhile (fun c => c == '\n') = d.reverse := by
        cases hdr : d.reverse with
        | nil => rfl
        | cons x xs =>
          have hx : x ∈ d := by
            rw [← List.mem_reverse, hdr]
            exact List.mem_cons_self x xs
          rw [List.dropWhile_cons, if_neg]
          simp only [beq_iff_eq]
          intro hxn
          exact hd (hxn ▸ hx)
      rw [hdw, List.reverse_reverse, ha2]
      rw [if_pos (by simp), show (d ++ ['\n']).dropLast = d from by simp]
    · rw [List.dropWhile_cons, if_neg (by simpa using ha)]
      rw [show (a :: d.reverse).reverse = d ++ [a] from by simp]
      rw [if_neg]
      simp only [List.getLast?_concat]
      intro hcon
      apply ha
      simp only [beq_iff_eq]
      exact (Option.some_inj.mp hcon)

/-- C4: every data line handed to the row constructor has its newline only in
last position, and the `rstrip` step removes exactly that one trailing
newline when present (and nothing otherwise): a data line can never end in
two consecutive newline characters. -/
theorem c4_strip_one_newline (content : Str) (l : Str)
    (h : l ∈ (splitLines content).tail) :
    pyRstripNewline (removeQuotes l) =
      (if (removeQuotes l).getLast? = some '\n'
       then (removeQuotes l).dropLast else removeQuotes l) ∧
    '\n' ∉ l.dropLast := by
  have hmem : l ∈ splitLines content := List.mem_of_mem_tail h
  have hni := splitLines_no_inner content l hmem
  exact ⟨pyRstripNewline_no_inner _ (removeQuotes_no_inner l hni), hni⟩

/-- C4 witness: instantiated on the first data line of the example file. -/
theorem c4_witness :
    "Fred,Bloggs,59,1.95,male\n".data ∈ (splitLines create_example_csv_file).tail ∧
    (pyRstripNewline (removeQuotes "Fred,Bloggs,59,1.95,male\n".data) =
      (if (removeQuotes "Fred,Bloggs,59,1.95,male\n".data).getLast? = some '\n'
       then (removeQuotes "Fred,Bloggs,59,1.95,male\n".data).dropLast
       else removeQuotes "Fred,Bloggs,59,1.95,male\n".data) ∧
     '\n' ∉ "Fred,Bloggs,59,1.95,male\n".data.dropLast) :=
  ⟨by decide, c4_strip_one_newline create_example_csv_file _ (by decide)⟩

theorem pySplitWSAux_no_space :
    ∀ (cs acc : Str), (∀ c ∈ acc, isPySpace c = false) →
      ∀ n ∈ pySplitWSAux acc cs, ∀ c ∈ n, isPySpace c = false := by
  intro cs
  induction cs with
  | nil =>
    intro acc hacc n hn
    simp only [pySplitWSAux] at hn
    split at hn
    · simp at hn
    · simp at hn
      subst hn
      intro c hc
      exact hacc c (by simpa using hc)
  | cons d ds ih =>
    intro acc hacc n hn
    simp only [pySplitWSAux] at hn
    split at hn
    · split at hn
      · exact ih [] (by simp) n hn
      · rcases List.mem_cons.mp hn with rfl | hn2
        · intro c hc
          exact hacc c (by simpa using hc)
        · exact ih [] (by simp) n hn2
    · rename_i hds
      refine ih (d :: acc) ?_ n hn
      intro c hc
      rcases List.mem_cons.mp hc with rfl | hc2
      · simpa using hds
      · exact hacc c hc2

theorem ntFieldNames_no_newline (s : Str) :
    ∀ n ∈ ntFieldNames s, '\n' ∉ n := by
  intro n hn hmem
  have hf := pySplitWSAux_no_space _ [] (by simp) n hn '\n' hmem
  simp [isPySpace] at hf

/-- C5 counterexample: the example file's header line does end with a newline
character, yet the last derived field name is `gender`, not `gender` followed
by a newline: the claim that the last field name retains the newline is false
on the code. -/
theorem c5_counterexample :
    ((splitLines create_example_csv_file).headD []).getLast? = some '\n' ∧
    exampleRow0.fields.getLast? = some "gender".data ∧
    exampleRow0.fields.getLast? ≠ some ("gender\n").data := by
  decide

/-- C5 amended: `read_csv` indeed never explicitly strips the header's
terminator, but `namedtuple` splits the field-name string on commas AND
whitespace, so the newline is discarded: no derived field name ever contains
a newline character. -/
theorem c5_amended_no_newline_in_names (content : Str) (n : Str)
    (h : n ∈ ntFieldNames (removeQuotes ((splitLines content).headD []))) :
    '\n' ∉ n :=
  ntFieldNames_no_newline _ n h

/-- C5 witness: instantiated on the example file's last field name. -/
theorem c5_witness :
    "gender".data ∈
      ntFieldNames (removeQuotes ((splitLines create_example_csv_file).headD [])) ∧
    '\n' ∉ "gender".data :=
  ⟨by decide, c5_amended_no_newline_in_names create_example_csv_file _ (by decide)⟩

theorem mapExcept_none_of_mem {α β : Type} (f : α → Except PyError β) :
    ∀ (l : List α) (a : α), a ∈ l → (f a).toOption = none →
      (mapExcept f l).toOption = none := by
  intro l
  induction l with
  | nil =>
    intro a ha _
    cases ha
  | cons b bs ih =>
    intro a ha he
    rcases List.mem_cons.mp ha with rfl | ha2
    · cases hfb : f a with
      | error e => simp [mapExcept, hfb, Except.toOption]
      | ok v => rw [hfb] at he; simp [Except.toOption] at he
    · cases hfb : f b with
      | error e => simp [mapExcept, hfb, Except.toOption]
      | ok v =>
        have hbs := ih a ha2 he
        cases hrec : mapExcept f bs with
        | error e => simp [mapExcept, hfb, hrec, Except.toOption]
        | ok vs => rw [hrec] at hbs; simp [Except.toOption] at hbs

/-- C6: if any data line's comma-split token count differs from the field
count, the whole read aborts with an error: no record list — in particular
none containing the earlier well-formed rows — is returned. -/
theorem c6_mismatch_aborts (content : Str)
    (h : ∃ l ∈ (splitLines content).tail,
      (splitOnChar ',' (pyRstripNewline (removeQuotes l))).length ≠
        (ntFieldNames (removeQuotes ((splitLines content).headD []))).length) :
    (read_csv content).toOption = none := by
  obtain ⟨l, hl, hne⟩ := h
  simp only [read_csv]
  split
  · apply mapExcept_none_of_mem _ _ l hl
    simp only [processDataLine, mkRow]
    rw [if_neg hne]
    rfl
  · rfl

/-- C6 witness: a two-field header with a one-token data line. -/
theorem c6_witness : (read_csv "a,b\nx\n".data).toOption = none :=
  c6_mismatch_aborts _ ⟨"x\n".data, by decide, by decide⟩

/-- C9 counterexample: split on commas, the header `ab cd` yields the single
field name `ab cd`, which contains a space and is not a valid identifier;
yet `read_csv` does not fail: `namedtuple` splits on the whitespace too
(producing the two fields `ab` and `cd`) and the read succeeds. -/
theorem c9_counterexample :
    "ab cd\n".data ∈
      splitOnChar ',' (removeQuotes ((splitLines "ab cd\n".data).headD [])) ∧
    isPyIdentifier "ab cd\n".data = false ∧
    read_csv "ab cd\n".data = .ok [] :=
  ⟨by decide, by decide, rfl⟩

/-- C9 amended: field names are the comma-AND-whitespace split of the header
performed by `namedtuple` (so internal whitespace silently produces extra
fields instead of failing); whenever any such name is not a valid
non-underscore-leading, non-keyword identifier, `read_csv` fails with
`ValueError` during header processing, whatever the data lines hold. -/
theorem c9_amended_header_validation (content : Str)
    (h : ∃ n ∈ ntFieldNames (removeQuotes ((splitLines content).headD [])),
      validFieldName n = false) :
    read_csv content = .error .valueError := by
  obtain ⟨n, hn, hv⟩ := h
  have hnot : ¬ (namedtupleOK
      (ntFieldNames (removeQuotes ((splitLines content).headD []))) = true) := by
    intro hok
    have hall := ((Bool.and_eq_true _ _).mp hok).1
    rw [List.all_eq_true] at hall
    have hvn := hall n hn
    rw [hv] at hvn
    simp at hvn
  simp only [read_csv]
  rw [if_neg hnot]

/-- C9 witness: a header whose first name starts with a digit makes the read
fail with `ValueError` even though the data line is well formed. -/
theorem c9_witness : read_csv "1a,b\nx,y\n".data = .error .valueError :=
  c9_amended_header_validation _ ⟨"1a".data, by decide, by decide⟩

/-- C10 counterexample: a file holding only the header line `1a` has no data
lines, yet `read_csv` raises `ValueError` instead of returning the empty
record list, because `namedtuple` rejects the field name `1a`. -/
theorem c10_counterexample :
    (splitLines "1a\n".data).tail = [] ∧
    read_csv "1a\n".data = .error .valueError :=
  ⟨by decide, rfl⟩

/-- C10 amended: for a file holding only a header line whose derived field
names pass `namedtuple` validation, `read_csv` succeeds and returns the
empty sequence of records. -/
theorem c10_header_only (content : Str)
    (hdata : (splitLines content).tail = [])
    (hok : namedtupleOK
      (ntFieldNames (removeQuotes ((splitLines content).headD []))) = true) :
    read_csv content = .ok [] := by
  simp only [read_csv]
  rw [if_pos hok, hdata]
  rfl

/-- C10 witness: the header-only file `a,b` reads back as the empty list. -/
theorem c10_witness : read_csv "a,b\n".data = .ok [] :=
  c10_header_only _ (by decide) (by decide)

/-- The numeric value of a decimal digit character. -/
def digitVal (c : Char) : Option Nat :=
  if c.isDigit then some (c.toNat - '0'.toNat) else none

/-- Helper for `parseDigits`: left-to-right accumulation. -/
def parseDigitsAux : Nat → Str → Option Nat
  | acc, [] => some acc
  | acc, c :: cs =>
    match digitVal c with
    | some d => parseDigitsAux (10 * acc + d) cs
    | none => none

/-- Parse a nonempty string of decimal digits. -/
def parseDigits : Str → Option Nat
  | [] => none
  | s => parseDigitsAux 0 s

/-- Model of Python `float(s)` restricted to the simple decimal forms
`digits` and `digits.digits` used by the height fields, returning the exact
rational value of the literal (the claim reads the average in exact rational
arithmetic). -/
def parseDecimal (s : Str) : Option ℚ :=
  match splitOnChar '.' s with
  | [a] => (parseDigits a).map (fun n => mkRat n 1)
  | [a, b] =>
    match parseDigits a, parseDigits b with
    | some n, some m => some (mkRat (n * 10 ^ b.length + m) (10 ^ b.length))
    | _, _ => none
  | _ => none

/-- `sum([float(row.height) for row in table])`, with exact rationals;
`none` models a failed conversion or a missing `height` field. -/
def sumHeights : List Row → Option ℚ
  | [] => some 0
  | r :: rs =>
    match (r.getByName "height".data).bind parseDecimal, sumHeights rs with
    | some h, some s => some (h + s)
    | _, _ => none

/-- The statistics line of the demonstration,
`mean_height = sum([float(row.height) for row in table]) / len(table)`;
`none` models a conversion failure or a division by zero. -/
def mean_height (table : List Row) : Option ℚ :=
  if table.length = 0 then none
  else (sumHeights table).map (fun s => s / (table.length : ℚ))

theorem sumHeights_eq : ∀ (rs : List Row) (qs : List ℚ),
    rs.map (fun r => (r.getByName "height".data).bind parseDecimal) = qs.map some →
    sumHeights rs = some qs.sum := by
  intro rs
  induction rs with
  | nil =>
    intro qs h
    cases qs with
    | nil => simp [sumHeights]
    | cons q qs2 => simp at h
  | cons r rs ih =>
    intro qs h
    cases qs with
    | nil => simp at h
    | cons q qs2 =>
      simp only [List.map_cons, List.cons.injEq] at h
      obtain ⟨h1, h2⟩ := h
      have hs := ih qs2 h2
      simp only [sumHeights, h1, hs, List.sum_cons]

/-- C8: the mean of the `height` field over the example file's 4 records is
exactly 181/100: (195/100 + 186/100 + 176/100 + 167/100) / 4 = 1.81, which
is its own rounding to 2 decimal places. -/
theorem c8_mean_height : mean_height exampleRows = some (181 / 100 : ℚ) := by
  have hmap : exampleRows.map (fun r => (r.getByName "height".data).bind parseDecimal) =
      [mkRat 195 100, mkRat 186 100, mkRat 176 100, mkRat 167 100].map some := by
    decide
  have hsum := sumHeights_eq _ _ hmap
  have hlen : exampleRows.length = 4 := by decide
  simp only [mean_height, hlen, hsum]
  rw [if_neg (by norm_num : ¬ (4 : ℕ) = 0)]
  simp only [Option.map_some', Option.some.injEq]
  rw [List.sum_cons, List.sum_cons, List.sum_cons, List.sum_cons, List.sum_nil]
  rw [Rat.mkRat_eq_div, Rat.mkRat_eq_div, Rat.mkRat_eq_div, Rat.mkRat_eq_div]
  norm_num
